import Mathlib

/-!
Verification of `experiments/20news/methods_20news.py` (class `Methods`).

The file shallowly embeds the data flow of the `Methods` class: matrices are
lists of rows over `ℚ`, the external collaborators (the `ssnmf` library's
`Evaluation` module, sklearn's `NMF`, `MultinomialNB` and `SGDClassifier`,
and scipy's `nnls`) are passed in as function parameters, and each method of
the class becomes a Lean function composing them exactly as the source does.
Theorems then settle the specification's claims about this code.
-/

namespace Methods20News

/-- A dense matrix as a list of rows of rationals (embedding numpy 2-d arrays;
the float entries are modelled as exact rationals). -/
abbrev Mat := List (List ℚ)

/-- Number of columns of a matrix: the length of its first row
(numpy `shape[1]` for the rectangular arrays the source builds). -/
def numCols (M : Mat) : Nat := (M.headD []).length

/-- Column `j` of a matrix: entry `j` of every row (missing entries read 0). -/
def colOf (M : Mat) (j : Nat) : List ℚ := M.map (fun r => r.getD j 0)

/-- Dot product of two rows. -/
def dotProd (u v : List ℚ) : ℚ := (List.zipWith (· * ·) u v).sum

/-- Matrix product (numpy `@`): entry `(i, j)` is row `i` of `A` dotted with
column `j` of `B`. -/
def matMul (A B : Mat) : Mat :=
  A.map (fun row => (List.range (numCols B)).map (fun j => dotProd row (colOf B j)))

/-- Matrix transpose (numpy `.T`). -/
def matTranspose (M : Mat) : Mat := (List.range (numCols M)).map (fun j => colOf M j)

/-- Build a `rank × cols.length` matrix whose `i`-th column is `cols[i]`,
embedding `H_test = np.zeros([rank, n]); H_test[:, i] = cols[i]` (entries the
assigned vector does not cover stay 0, as `getD`'s default). -/
def matFromCols (rank : Nat) (cols : List (List ℚ)) : Mat :=
  (List.range rank).map (fun r => cols.map (fun c => c.getD r 0))

/-- One entry of the clipping `M[M < 0] = 0`. -/
def clipQ (x : ℚ) : ℚ := if x < 0 then 0 else x

/-- Entrywise clipping of negative entries to zero, embedding the numpy
fancy assignment `M[M < 0] = 0` applied to a fresh copy. -/
def clipNeg (M : Mat) : Mat := M.map (fun row => row.map clipQ)

/-- The accuracy `np.mean(predicted == labels)`: the fraction of positions
where the two label vectors agree. -/
def meanEq (pred labels : List Int) : ℚ :=
  (List.zipWith (fun a b => if a = b then (1 : ℚ) else 0) pred labels).sum / pred.length

/-- Maximum entry of a list of rationals (the value `np.max` would return;
only used on non-empty lists). -/
def listMax : List ℚ → ℚ
  | [] => 0
  | [x] => x
  | x :: y :: xs => max x (listMax (y :: xs))

/-- `np.argmax` on a vector: the index of the first occurrence of the maximum. -/
def npArgmax : List ℚ → Nat
  | [] => 0
  | [_] => 0
  | x :: y :: xs => if listMax (y :: xs) ≤ x then 0 else npArgmax (y :: xs) + 1

theorem npArgmax_lt_length : ∀ l : List ℚ, l ≠ [] → npArgmax l < l.length := by
  intro l
  induction l with
  | nil => simp
  | cons x xs ih =>
    cases xs with
    | nil => intro _; simp [npArgmax]
    | cons y ys =>
      intro _
      simp only [npArgmax]
      split
      · simp
      · have h := ih (by simp)
        simpa [Nat.succ_lt_succ_iff] using h

theorem getD_npArgmax : ∀ l : List ℚ, l ≠ [] → l.getD (npArgmax l) 0 = listMax l := by
  intro l
  induction l with
  | nil => simp
  | cons x xs ih =>
    cases xs with
    | nil => intro _; simp [npArgmax, listMax]
    | cons y ys =>
      intro _
      simp only [npArgmax, listMax]
      split
      · rename_i hle
        rw [List.getD_cons_zero, max_eq_left hle]
      · rename_i hlt
        have h := ih (by simp)
        rw [List.getD_cons_succ, h, max_eq_right (le_of_lt (not_le.mp hlt))]

theorem getD_le_listMax : ∀ (l : List ℚ) (k : Nat), k < l.length → l.getD k 0 ≤ listMax l := by
  intro l
  induction l with
  | nil => intro k hk; simp at hk
  | cons x xs ih =>
    cases xs with
    | nil =>
      intro k hk
      cases k with
      | zero => simp [listMax]
      | succ k => simp at hk
    | cons y ys =>
      intro k hk
      cases k with
      | zero => simp [listMax]
      | succ k =>
        have h := ih k (by simpa [Nat.succ_lt_succ_iff] using hk)
        calc (x :: y :: ys).getD (k + 1) 0 = (y :: ys).getD k 0 := by simp
        _ ≤ listMax (y :: ys) := h
        _ ≤ listMax (x :: y :: ys) := by simp [listMax]

theorem getD_lt_listMax_of_lt_npArgmax :
    ∀ (l : List ℚ) (k : Nat), k < npArgmax l → l.getD k 0 < listMax l := by
  intro l
  induction l with
  | nil => intro k hk; simp [npArgmax] at hk
  | cons x xs ih =>
    cases xs with
    | nil => intro k hk; simp [npArgmax] at hk
    | cons y ys =>
      intro k hk
      simp only [npArgmax] at hk
      split at hk
      · omega
      · rename_i hlt
        have hx : x < listMax (y :: ys) := not_le.mp hlt
        have hmax : listMax (x :: y :: ys) = listMax (y :: ys) := by
          simp [listMax, max_eq_right (le_of_lt hx)]
        cases k with
        | zero => simpa [hmax] using hx
        | succ k =>
          have h := ih k (by omega)
          simpa [hmax] using h

/-- Insert index `i` into an index list sorted ascending by `vals`, keeping
indices of equal values in insertion order (`np.argsort` tie behaviour for
the index produced later). -/
def insertIdxAsc (vals : List ℚ) (i : Nat) : List Nat → List Nat
  | [] => [i]
  | j :: rest =>
    if vals.getD j 0 ≤ vals.getD i 0 then j :: insertIdxAsc vals i rest else i :: j :: rest

/-- `np.argsort` on a vector: the list of indices that sorts it ascending. -/
def npArgsort (vals : List ℚ) : List Nat :=
  (List.range vals.length).foldl (fun acc i => insertIdxAsc vals i acc) []

theorem insertIdxAsc_perm (vals : List ℚ) (i : Nat) :
    ∀ l : List Nat, (insertIdxAsc vals i l).Perm (i :: l) := by
  intro l
  induction l with
  | nil => simp [insertIdxAsc]
  | cons j rest ih =>
    simp only [insertIdxAsc]
    split
    · exact (ih.cons j).trans (List.Perm.swap i j rest)
    · exact List.Perm.refl _

theorem foldl_insertIdxAsc_perm (vals : List ℚ) :
    ∀ (idxs acc : List Nat),
      (idxs.foldl (fun a i => insertIdxAsc vals i a) acc).Perm (idxs ++ acc) := by
  intro idxs
  induction idxs with
  | nil => intro acc; simp
  | cons i rest ih =>
    intro acc
    have h1 := ih (insertIdxAsc vals i acc)
    have h2 : (rest ++ insertIdxAsc vals i acc).Perm (rest ++ i :: acc) :=
      List.Perm.append_left rest (insertIdxAsc_perm vals i acc)
    have h3 : (rest ++ i :: acc).Perm (i :: (rest ++ acc)) := List.perm_middle
    simpa using h1.trans (h2.trans h3)

theorem npArgsort_perm (vals : List ℚ) : (npArgsort vals).Perm (List.range vals.length) := by
  simpa [npArgsort] using foldl_insertIdxAsc_perm vals (List.range vals.length) []

theorem length_npArgsort (vals : List ℚ) : (npArgsort vals).length = vals.length := by
  simpa using (npArgsort_perm vals).length_eq

/-- Insert a label into a sorted duplicate-free list of labels. -/
def insertClass (x : Int) : List Int → List Int
  | [] => [x]
  | y :: ys =>
    if x < y then x :: y :: ys else if x = y then y :: ys else y :: insertClass x ys

/-- The distinct labels in ascending order: the column ordering that
`pd.get_dummies` derives from a label vector (sorted unique values). -/
def classesOf (labels : List Int) : List Int := labels.foldr insertClass []

theorem mem_insertClass (x a : Int) : ∀ l : List Int, a ∈ insertClass x l ↔ a = x ∨ a ∈ l := by
  intro l
  induction l with
  | nil => simp [insertClass]
  | cons y ys ih =>
    simp only [insertClass]
    split
    · simp only [List.mem_cons]
    · split
      · rename_i hxy
        subst hxy
        simp only [List.mem_cons]
        tauto
      · simp only [List.mem_cons, ih]
        tauto

theorem sorted_insertClass (x : Int) :
    ∀ l : List Int, l.Sorted (· < ·) → (insertClass x l).Sorted (· < ·) := by
  intro l
  induction l with
  | nil => intro _; simp [insertClass]
  | cons y ys ih =>
    intro hs
    obtain ⟨hy, hys⟩ := List.sorted_cons.mp hs
    simp only [insertClass]
    split
    · rename_i hxy
      rw [List.sorted_cons]
      refine ⟨?_, hs⟩
      intro b hb
      rcases List.mem_cons.mp hb with rfl | hb
      · exact hxy
      · exact hxy.trans (hy b hb)
    · split
      · exact hs
      · rename_i h1 h2
        have hyx : y < x := by omega
        rw [List.sorted_cons]
        refine ⟨?_, ih hys⟩
        intro b hb
        rcases (mem_insertClass x b ys).mp hb with rfl | hb
        · exact hyx
        · exact hy b hb

theorem sorted_classesOf (labels : List Int) : (classesOf labels).Sorted (· < ·) := by
  induction labels with
  | nil => simp [classesOf]
  | cons x xs ih =>
    simp only [classesOf, List.foldr_cons]
    simp only [classesOf] at ih
    exact sorted_insertClass x _ ih

theorem nodup_classesOf (labels : List Int) : (classesOf labels).Nodup :=
  (sorted_classesOf labels).nodup

theorem mem_classesOf (labels : List Int) (a : Int) : a ∈ classesOf labels ↔ a ∈ labels := by
  induction labels with
  | nil => simp [classesOf]
  | cons x xs ih =>
    simp only [classesOf, List.foldr_cons] at *
    rw [mem_insertClass]
    rw [ih]
    simp [List.mem_cons]

theorem sorted_lt_eq_of_mem_iff :
    ∀ l1 l2 : List Int, l1.Sorted (· < ·) → l2.Sorted (· < ·) →
      (∀ a, a ∈ l1 ↔ a ∈ l2) → l1 = l2 := by
  intro l1
  induction l1 with
  | nil =>
    intro l2 _ _ hmem
    cases l2 with
    | nil => rfl
    | cons b bs => exact absurd ((hmem b).mpr (List.mem_cons_self b bs)) (by simp)
  | cons a as ih =>
    intro l2 h1 h2 hmem
    cases l2 with
    | nil => exact absurd ((hmem a).mp (List.mem_cons_self a as)) (by simp)
    | cons b bs =>
      obtain ⟨ha, has⟩ := List.sorted_cons.mp h1
      obtain ⟨hb, hbs⟩ := List.sorted_cons.mp h2
      have hab : a = b := by
        rcases List.mem_cons.mp ((hmem a).mp (List.mem_cons_self a as)) with h | h
        · exact h
        · have hba := hb a h
          rcases List.mem_cons.mp ((hmem b).mpr (List.mem_cons_self b bs)) with h' | h'
          · omega
          · have := ha b h'
            omega
      subst hab
      congr 1
      apply ih bs has hbs
      intro c
      constructor
      · intro hc
        have hac := ha c hc
        rcases List.mem_cons.mp ((hmem c).mp (List.mem_cons_of_mem a hc)) with h | h
        · omega
        · exact h
      · intro hc
        have hbc := hb c hc
        rcases List.mem_cons.mp ((hmem c).mpr (List.mem_cons_of_mem a hc)) with h | h
        · omega
        · exact h

theorem classesOf_eq_of_toFinset_eq (l1 l2 : List Int) (h : l1.toFinset = l2.toFinset) :
    classesOf l1 = classesOf l2 := by
  apply sorted_lt_eq_of_mem_iff _ _ (sorted_classesOf l1) (sorted_classesOf l2)
  intro a
  rw [mem_classesOf, mem_classesOf, ← List.mem_toFinset, ← List.mem_toFinset, h]

/-- The transposed one-hot label matrix `pd.get_dummies(labels).T.to_numpy()`:
one row per distinct label value in ascending order, one column per document;
entry `(c, d)` is 1 exactly when document `d` carries class `c`. -/
def oneHotT (labels : List Int) : Mat :=
  (classesOf labels).map (fun c => labels.map (fun l => if l = c then (1 : ℚ) else 0))

theorem sum_indicator_nodup :
    ∀ l : List Int, l.Nodup → ∀ x ∈ l, (l.map (fun c => if x = c then (1 : ℚ) else 0)).sum = 1 := by
  intro l
  induction l with
  | nil => intro _ x hx; simp at hx
  | cons c cs ih =>
    intro hnd x hx
    obtain ⟨hc, hcs⟩ := List.nodup_cons.mp hnd
    rcases List.mem_cons.mp hx with rfl | hx
    · simp only [List.map_cons, List.sum_cons, if_pos rfl]
      have hz : (cs.map (fun c' => if x = c' then (1 : ℚ) else 0)).sum = 0 := by
        apply List.sum_eq_zero
        intro q hq
        obtain ⟨c', hc', rfl⟩ := List.mem_map.mp hq
        rw [if_neg]
        intro h
        exact hc (h ▸ hc')
      rw [hz]
      simp
    · have hxc : x ≠ c := fun h => hc (h ▸ hx)
      simp only [List.map_cons, List.sum_cons, if_neg hxc]
      rw [ih hcs x hx]
      ring

theorem colOf_oneHotT_sum (labels : List Int) (d : Nat) (hd : d < labels.length) :
    (colOf (oneHotT labels) d).sum = 1 := by
  unfold colOf oneHotT
  rw [List.map_map]
  have hfun : ((fun r => r.getD d 0) ∘ fun c => labels.map (fun l => if l = c then (1 : ℚ) else 0)) =
      fun c => if labels.get ⟨d, hd⟩ = c then (1 : ℚ) else 0 := by
    funext c
    simp only [Function.comp]
    rw [List.getD_eq_getElem _ 0 (by simpa using hd), List.getElem_map, List.get_eq_getElem]
  rw [hfun]
  exact sum_indicator_nodup _ (nodup_classesOf labels) _
    ((mem_classesOf _ _).mpr (by rw [List.get_eq_getElem]; exact List.getElem_mem hd))

/-- The constructor arguments of the `Methods` class: feature matrices
(vocabulary × documents) and raw label vectors for the train, validation,
test and full-train splits. -/
structure MethodsData where
  X_train : Mat
  X_val : Mat
  X_test : Mat
  train_labels : List Int
  val_labels : List Int
  test_labels : List Int
  X_train_full : Mat
  train_labels_full : List Int
deriving DecidableEq

/-- The one-hot label matrices `Methods.__init__` derives: one call to
`pd.get_dummies(...).T.to_numpy()` per split. -/
structure MethodsState where
  y_train : Mat
  y_test : Mat
  y_val : Mat
  y_train_full : Mat
deriving DecidableEq

/-- The label one-hot encoding performed by `Methods.__init__`. -/
def methodsInit (d : MethodsData) : MethodsState :=
  { y_train := oneHotT d.train_labels
    y_test := oneHotT d.test_labels
    y_val := oneHotT d.val_labels
    y_train_full := oneHotT d.train_labels_full }

/-- What the external `ssnmf.evaluation.Evaluation` module exposes after
`eval()`: the fitted factors `A`, `B`, `S`, the test representation `S_test`,
and the train/test error trajectories. An opaque collaborator output. -/
structure EvalModuleResult where
  A : Mat
  B : Mat
  S : Mat
  S_test : Mat
  train_evals : List (List ℚ)
  test_evals : List ℚ
deriving DecidableEq

/-- The arguments `Methods.SSNMF` hands the final `Evaluation` constructor
(source lines 211–214). -/
structure FitCall where
  train_features : Mat
  train_labels : Mat
  test_features : Mat
  test_labels : Mat
  tol : ℚ
  modelNum : Nat
  k : Int
  lam : ℚ
  numiters : Int
deriving DecidableEq

/-- The signature of the external `Evaluation.iterativeLocalSearch` phase:
it sees the search module's data (train features/labels, validation
features/labels, rank, model number, tolerance) and the initial
`(init_lamb, init_k, init_itas)`, and returns `(opt_lamb, opt_ka, opt_itas)`. -/
abbrev SearchFn :=
  Mat → Mat → Mat → Mat → Int → Nat → ℚ → ℚ → Int → Int → ℚ × Int × Int

/-- Hyperparameter resolution of `Methods.SSNMF` (source lines 199–209):
with `hyp_search == 0` the supplied values pass through; otherwise the local
search runs on the validation split and its result is used. -/
def SSNMF_hyperparams (ils : SearchFn) (d : MethodsData) (modelNum : Nat)
    (ssnmf_tol lamb : ℚ) (ka itas : Int) (hyp_search : Nat) : ℚ × Int × Int :=
  if hyp_search = 0 then (lamb, ka, itas)
  else ils d.X_train (methodsInit d).y_train d.X_val (methodsInit d).y_val
    ka modelNum ssnmf_tol lamb ka itas

/-- The final `Evaluation` constructor call of `Methods.SSNMF`: full-train
features and labels, test features and labels, and the resolved
hyperparameters. -/
def SSNMF_fitCall (ils : SearchFn) (d : MethodsData) (modelNum : Nat)
    (ssnmf_tol lamb : ℚ) (ka itas : Int) (hyp_search : Nat) : FitCall :=
  let p := SSNMF_hyperparams ils d modelNum ssnmf_tol lamb ka itas hyp_search
  { train_features := d.X_train_full
    train_labels := (methodsInit d).y_train_full
    test_features := d.X_test
    test_labels := (methodsInit d).y_test
    tol := ssnmf_tol
    modelNum := modelNum
    k := p.2.1
    lam := p.1
    numiters := p.2.2 }

/-- The label prediction of `Methods.SSNMF` (source lines 222–223):
`np.argmax(B @ S_test, axis=0) + 1`. -/
def ssnmfPredict (B S_test : Mat) : List Nat :=
  (List.range (numCols S_test)).map (fun j => npArgmax (colOf (matMul B S_test) j) + 1)

/-- The tuple `Methods.SSNMF` returns. -/
structure SSNMFResult where
  test_evals : List ℚ
  A : Mat
  B : Mat
  predicted : List Nat
  iters : Nat
  S : Mat
  S_test : Mat
deriving DecidableEq

/-- `Methods.SSNMF`, parameterized over the external `Evaluation` module's
two phases (`ils` for `iterativeLocalSearch`, `fit` for construction plus
`eval()`): resolve hyperparameters, fit on the full-train split, evaluate on
the test split, and read off predictions and factors. -/
def SSNMF_run (fit : FitCall → EvalModuleResult) (ils : SearchFn) (d : MethodsData)
    (modelNum : Nat) (ssnmf_tol lamb : ℚ) (ka itas : Int) (hyp_search : Nat) : SSNMFResult :=
  let em := fit (SSNMF_fitCall ils d modelNum ssnmf_tol lamb ka itas hyp_search)
  { test_evals := em.test_evals
    A := em.A
    B := em.B
    predicted := ssnmfPredict em.B em.S_test
    iters := (em.train_evals.headD []).length
    S := em.S
    S_test := em.S_test }

/-- The error the specification's taxonomy assigns to invalid SSNMF
hyperparameters. -/
inductive SSNMFError where
  | invalidHyperparameter : SSNMFError
deriving DecidableEq

/-- `Methods.SSNMF` as a fallible operation: the source body raises nothing
itself, so every run produces `Except.ok` of the computed result. -/
def SSNMF_method (fit : FitCall → EvalModuleResult) (ils : SearchFn) (d : MethodsData)
    (modelNum : Nat) (ssnmf_tol lamb : ℚ) (ka itas : Int) (hyp_search : Nat) :
    Except SSNMFError SSNMFResult :=
  Except.ok (SSNMF_run fit ils d modelNum ssnmf_tol lamb ka itas hyp_search)

/-- A fitted `SGDClassifier` pipeline as the source consumes it: its
coefficient matrix `coef_` and its prediction map. -/
structure SVMClf where
  coef : Mat
  predictFn : Mat → List Int

/-- The tuple `Methods.NMF` returns, plus the classifier coefficient matrix
as it stands after the method body ran (the source clips a `.copy()`, so the
classifier's own matrix must survive unchanged). -/
structure NMFResult where
  nmf_svm_acc : ℚ
  W : Mat
  nn_svm : Mat
  predicted : List Int
  nmf_iter : Nat
  H : Mat
  H_test : Mat
  clf_coef_after : Mat

/-- `Methods.NMF`, parameterized over the external collaborators: `factor`
(sklearn `NMF.fit_transform` returning `W`, `H` and the iteration count),
`svmFit` (the scaler+SGD pipeline fit), and `nnls` (scipy's non-negative
least squares). For each test document `i` independently, column `i` of
`H_test` is `nnls(W, X_test[:, i])`; the SVM classifies `H_test.T`; the
returned coefficient matrix is a clipped copy. -/
def NMF_method (factor : Mat → Nat → ℚ → Mat × Mat × Nat)
    (svmFit : Mat → List Int → SVMClf) (nnls : Mat → List ℚ → List ℚ)
    (d : MethodsData) (rank : Nat) (nmf_tol : ℚ) : NMFResult :=
  let f := factor d.X_train_full rank nmf_tol
  let W := f.1
  let H := f.2.1
  let clf := svmFit (matTranspose H) d.train_labels_full
  let testCols := (List.range (numCols d.X_test)).map (fun i => nnls W (colOf d.X_test i))
  let H_test := matFromCols rank testCols
  let pred := clf.predictFn (matTranspose H_test)
  { nmf_svm_acc := meanEq pred d.test_labels
    W := W
    nn_svm := clipNeg clf.coef
    predicted := pred
    nmf_iter := f.2.2
    H := H
    H_test := H_test
    clf_coef_after := clf.coef }

/-- The error the specification assigns to a class-set mismatch between
splits. -/
inductive DataMismatchError where
  | mk : DataMismatchError
deriving DecidableEq

/-- `Methods.MultinomialNB`, parameterized over the external sklearn
classifier (`fit` on the transposed full-train features with raw labels,
`predict` on the transposed test features): the body raises nothing, so the
pair (accuracy, predictions) always comes back as `Except.ok`. -/
def MultinomialNB_method {Clf : Type} (fit : Mat → List Int → Clf)
    (predict : Clf → Mat → List Int) (d : MethodsData) :
    Except DataMismatchError (ℚ × List Int) :=
  let clf := fit (matTranspose d.X_train_full) d.train_labels_full
  let pred := predict clf (matTranspose d.X_test)
  Except.ok (meanEq pred d.test_labels, pred)

/-- One result dictionary of `Methods.run_analysis`, keyed by the seven
method names; `α` is the per-trial entry type (`ℚ` for `acc_dict`, a label
vector for `Yhat_dict`). -/
structure MDict (α : Type) where
  m3 : List α
  m4 : List α
  m5 : List α
  m6 : List α
  nmf : List α
  nb : List α
  svm : List α
deriving DecidableEq

/-- The dictionaries right before the trial loop: Naive Bayes has already
run exactly once, every other method's list is empty. -/
def initMDict {α : Type} (nbv : α) : MDict α :=
  { m3 := [], m4 := [], m5 := [], m6 := [], nmf := [], nb := [nbv], svm := [] }

/-- One iteration of the trial loop of `Methods.run_analysis`: the four
SSNMF variants, NMF+SVM and SVM each append one entry (`res j m` abstracts
the value method `m` produced in trial `j`); Naive Bayes is not re-run. -/
def trialStep {α : Type} (res : Nat → Fin 6 → α) (j : Nat) (d : MDict α) : MDict α :=
  { m3 := d.m3 ++ [res j 0]
    m4 := d.m4 ++ [res j 1]
    m5 := d.m5 ++ [res j 2]
    m6 := d.m6 ++ [res j 3]
    nmf := d.nmf ++ [res j 4]
    nb := d.nb
    svm := d.svm ++ [res j 5] }

/-- The dictionary after the first `n` trials of `Methods.run_analysis`. -/
def afterTrials {α : Type} (res : Nat → Fin 6 → α) (nbv : α) (n : Nat) : MDict α :=
  (List.range n).foldl (fun d j => trialStep res j d) (initMDict nbv)

/-- The sequence of states `pickle.dump` persists: one snapshot at the end
of every trial, each overwriting the previous file. -/
def runAnalysisCheckpoints {α : Type} (res : Nat → Fin 6 → α) (nbv : α) (n : Nat) :
    List (MDict α) :=
  (List.range n).map (fun j => afterTrials res nbv (j + 1))

/-- The median-trial index `Methods.run_analysis` stores for a method:
`np.argsort(acc)[len(acc) // 2]`. -/
def runMedianIndex (acc : List ℚ) : Nat := (npArgsort acc).getD (acc.length / 2) 0

/-- The `median_dict` built at the end of `Methods.run_analysis` (source
lines 351–365): entries for the four SSNMF variants, NMF and SVM — and for
no other method. -/
def runAnalysisMedianDict (accD : MDict ℚ) : List (String × Nat) :=
  [("Model3", runMedianIndex accD.m3), ("Model4", runMedianIndex accD.m4),
   ("Model5", runMedianIndex accD.m5), ("Model6", runMedianIndex accD.m6),
   ("NMF", runMedianIndex accD.nmf), ("SVM", runMedianIndex accD.svm)]

/-- The Naive Bayes predictions `Methods.median_results` reports: always
entry 0 of the NB list (source line 414), never a median index. -/
def medianResults_nbPredicted (yhat : MDict (List Int)) : List Int := yhat.nb.getD 0 []

theorem getD_map_range {β : Type} (f : Nat → β) (n i : Nat) (hi : i < n) (dflt : β) :
    ((List.range n).map f).getD i dflt = f i := by
  rw [List.getD_eq_getElem _ _ (by simpa using hi), List.getElem_map, List.getElem_range]

theorem getD_map_clipQ_nonneg (row : List ℚ) (jj : Nat) : 0 ≤ (row.map clipQ).getD jj 0 := by
  rcases lt_or_ge jj row.length with hjj | hjj
  · rw [List.getD_eq_getElem _ _ (by simpa using hjj), List.getElem_map]
    unfold clipQ
    split
    · exact le_refl 0
    · rename_i h
      exact le_of_not_lt h
  · rw [List.getD_eq_default _ _ (by simpa using hjj)]

theorem getD_map_of_lt {α β : Type} (f : α → β) (l : List α) (i : Nat) (hi : i < l.length)
    (dflt : β) : (l.map f).getD i dflt = f (l.get ⟨i, hi⟩) := by
  rw [List.getD_eq_getElem _ _ (by simpa using hi), List.getElem_map, List.get_eq_getElem]

theorem getD_clipNeg_nonneg (M : Mat) (i jj : Nat) : 0 ≤ (((clipNeg M).getD i []).getD jj 0) := by
  unfold clipNeg
  rcases lt_or_ge i M.length with hi | hi
  · rw [getD_map_of_lt _ _ i hi]
    exact getD_map_clipQ_nonneg _ jj
  · have hrow : (M.map (fun row => row.map clipQ)).getD i [] = [] :=
      List.getD_eq_default _ _ (by simpa using hi)
    rw [hrow]
    simp

theorem colOf_matFromCols (rank : Nat) (cols : List (List ℚ)) (i : Nat) (hi : i < cols.length) :
    colOf (matFromCols rank cols) i =
      (List.range rank).map (fun rr => (cols.getD i []).getD rr 0) := by
  unfold colOf matFromCols
  rw [List.map_map]
  apply List.map_congr_left
  intro rr _
  simp only [Function.comp]
  rw [getD_map_of_lt _ _ i hi, List.getD_eq_getElem cols _ hi, List.get_eq_getElem]

theorem afterTrials_succ {α : Type} (res : Nat → Fin 6 → α) (nbv : α) (k : Nat) :
    afterTrials res nbv (k + 1) = trialStep res k (afterTrials res nbv k) := by
  unfold afterTrials
  rw [List.range_succ, List.foldl_concat]

theorem afterTrials_nb {α : Type} (res : Nat → Fin 6 → α) (nbv : α) :
    ∀ n : Nat, (afterTrials res nbv n).nb = [nbv] := by
  intro n
  induction n with
  | zero => rfl
  | succ k ih => rw [afterTrials_succ, trialStep, ih]

theorem afterTrials_lengths {α : Type} (res : Nat → Fin 6 → α) (nbv : α) :
    ∀ n : Nat,
      (afterTrials res nbv n).m3.length = n ∧ (afterTrials res nbv n).m4.length = n ∧
      (afterTrials res nbv n).m5.length = n ∧ (afterTrials res nbv n).m6.length = n ∧
      (afterTrials res nbv n).nmf.length = n ∧ (afterTrials res nbv n).svm.length = n := by
  intro n
  induction n with
  | zero => refine ⟨rfl, rfl, rfl, rfl, rfl, rfl⟩
  | succ k ih =>
    obtain ⟨h3, h4, h5, h6, hn, hs⟩ := ih
    rw [afterTrials_succ]
    simp [trialStep, h3, h4, h5, h6, hn, hs]

/-- A concrete stand-in for the external `Evaluation` fit phase, used to
evaluate the theorems at explicit inputs. -/
def exampleFit : FitCall → EvalModuleResult := fun _ =>
  { A := [[1, 0], [0, 1]]
    B := [[0, 1], [2, 0]]
    S := [[1, 0], [0, 1]]
    S_test := [[1, 0], [0, 2]]
    train_evals := [[1, 2, 3]]
    test_evals := [1/2, 1/3, 1/4, 3/4] }

/-- A concrete stand-in for `Evaluation.iterativeLocalSearch`: shifts each
initial hyperparameter so pass-through and search are distinguishable. -/
def exampleSearch : SearchFn := fun _ _ _ _ _ _ _ lamb k itas => (lamb + 1, k + 3, itas + 5)

/-- A small concrete `Methods` constructor input; its validation split misses
class 2, which the train split contains. -/
def exampleData : MethodsData :=
  { X_train := [[1, 0], [0, 1]]
    X_val := [[1], [0]]
    X_test := [[0, 1], [1, 0]]
    train_labels := [1, 2]
    val_labels := [1]
    test_labels := [2, 1]
    X_train_full := [[1, 0, 1], [0, 1, 0]]
    train_labels_full := [1, 2, 1] }

/-- A concrete stand-in for sklearn's `NMF` factorization. -/
def exampleFactor : Mat → Nat → ℚ → Mat × Mat × Nat :=
  fun _ _ _ => ([[1, 0], [0, 1]], [[1, 0, 1], [0, 1, 0]], 5)

/-- A concrete stand-in for the scaler+SGD pipeline fit. -/
def exampleSvmFit : Mat → List Int → SVMClf :=
  fun _ _ => { coef := [[1, -2], [-3, 4]], predictFn := fun M => M.map (fun _ => 1) }

/-- A concrete stand-in for scipy's `nnls` solve. -/
def exampleNnls : Mat → List ℚ → List ℚ := fun _ x => x

/-- A concrete stand-in for sklearn's `MultinomialNB().fit`: remembers the
training labels. -/
def exampleNBFit : Mat → List Int → List Int := fun _ y => y

/-- A concrete stand-in for `MultinomialNB` prediction: one label (the first
training label, a class seen in training) per test row. -/
def exampleNBPredict : List Int → Mat → List Int := fun clf M => M.map (fun _ => clf.headD 0)

/-- A concrete `Methods` input whose test labels contain class 3 while the
full-train split only ever carries classes 1 and 2. -/
def mismatchData : MethodsData :=
  { X_train := [[1]]
    X_val := [[1]]
    X_test := [[1, 0]]
    train_labels := [1]
    val_labels := [1]
    test_labels := [3, 1]
    X_train_full := [[1, 1]]
    train_labels_full := [1, 2] }

theorem ssnmfPredict_spec (B S : Mat) (j : Nat) (hj : j < numCols S) (hB : B ≠ []) :
    ∃ r : Nat, (ssnmfPredict B S).getD j 0 = r + 1 ∧ r < (matMul B S).length ∧
      (∀ r' : Nat, r' < (matMul B S).length →
        (colOf (matMul B S) j).getD r' 0 ≤ (colOf (matMul B S) j).getD r 0) ∧
      (∀ r' : Nat, r' < r →
        (colOf (matMul B S) j).getD r' 0 < (colOf (matMul B S) j).getD r 0) := by
  have hlenM : (matMul B S).length = B.length := List.length_map _ _
  have hlen : (colOf (matMul B S) j).length = (matMul B S).length := List.length_map _ _
  have hBpos : 0 < B.length := List.length_pos.mpr hB
  have hcolne : colOf (matMul B S) j ≠ [] := by
    apply List.length_pos.mp
    rw [hlen, hlenM]
    exact hBpos
  refine ⟨npArgmax (colOf (matMul B S) j), ?_, ?_, ?_, ?_⟩
  · unfold ssnmfPredict
    exact getD_map_range _ _ j hj 0
  · have := npArgmax_lt_length _ hcolne
    rwa [hlen] at this
  · intro r' hr'
    rw [getD_npArgmax _ hcolne]
    exact getD_le_listMax _ r' (by rw [hlen]; exact hr')
  · intro r' hr'
    rw [getD_npArgmax _ hcolne]
    exact getD_lt_listMax_of_lt_npArgmax _ r' hr'

/-- C1: for every SSNMF evaluation run — any model variant, any behaviour of
the external `Evaluation` collaborator — the predicted label of each test
document `j` is `r + 1` where `r` is the first row index maximizing column
`j` of `B @ S_test` (source: `np.argmax(B @ S_test, axis=0) + 1`, 1-indexed
classes). -/
theorem ssnmf_predicted_is_argmax_plus_one
    (fit : FitCall → EvalModuleResult) (ils : SearchFn) (d : MethodsData)
    (modelNum : Nat) (ssnmf_tol lamb : ℚ) (ka itas : Int) (hyp_search : Nat) (j : Nat)
    (hj : j < numCols (SSNMF_run fit ils d modelNum ssnmf_tol lamb ka itas hyp_search).S_test)
    (hB : (SSNMF_run fit ils d modelNum ssnmf_tol lamb ka itas hyp_search).B ≠ []) :
    ∃ r : Nat,
      (SSNMF_run fit ils d modelNum ssnmf_tol lamb ka itas hyp_search).predicted.getD j 0 =
        r + 1 ∧
      r < (matMul (SSNMF_run fit ils d modelNum ssnmf_tol lamb ka itas hyp_search).B
          (SSNMF_run fit ils d modelNum ssnmf_tol lamb ka itas hyp_search).S_test).length ∧
      (∀ r' : Nat,
        r' < (matMul (SSNMF_run fit ils d modelNum ssnmf_tol lamb ka itas hyp_search).B
            (SSNMF_run fit ils d modelNum ssnmf_tol lamb ka itas hyp_search).S_test).length →
        (colOf (matMul (SSNMF_run fit ils d modelNum ssnmf_tol lamb ka itas hyp_search).B
            (SSNMF_run fit ils d modelNum ssnmf_tol lamb ka itas hyp_search).S_test) j).getD r' 0 ≤
        (colOf (matMul (SSNMF_run fit ils d modelNum ssnmf_tol lamb ka itas hyp_search).B
            (SSNMF_run fit ils d modelNum ssnmf_tol lamb ka itas hyp_search).S_test) j).getD r 0) ∧
      (∀ r' : Nat, r' < r →
        (colOf (matMul (SSNMF_run fit ils d modelNum ssnmf_tol lamb ka itas hyp_search).B
            (SSNMF_run fit ils d modelNum ssnmf_tol lamb ka itas hyp_search).S_test) j).getD r' 0 <
        (colOf (matMul (SSNMF_run fit ils d modelNum ssnmf_tol lamb ka itas hyp_search).B
            (SSNMF_run fit ils d modelNum ssnmf_tol lamb ka itas hyp_search).S_test) j).getD r 0) :=
  ssnmfPredict_spec _ _ j hj hB

/-- C1 witness: the theorem evaluated at a concrete fit result where column 0
of `B @ S_test` is `[0, 2]`, so document 0 is predicted class 2. -/
theorem ssnmf_predicted_is_argmax_plus_one_witness :
    ∃ r : Nat,
      (SSNMF_run exampleFit exampleSearch exampleData 3 1 0 2 10 0).predicted.getD 0 0 =
        r + 1 ∧
      r < (matMul (SSNMF_run exampleFit exampleSearch exampleData 3 1 0 2 10 0).B
          (SSNMF_run exampleFit exampleSearch exampleData 3 1 0 2 10 0).S_test).length ∧
      (∀ r' : Nat,
        r' < (matMul (SSNMF_run exampleFit exampleSearch exampleData 3 1 0 2 10 0).B
            (SSNMF_run exampleFit exampleSearch exampleData 3 1 0 2 10 0).S_test).length →
        (colOf (matMul (SSNMF_run exampleFit exampleSearch exampleData 3 1 0 2 10 0).B
            (SSNMF_run exampleFit exampleSearch exampleData 3 1 0 2 10 0).S_test) 0).getD r' 0 ≤
        (colOf (matMul (SSNMF_run exampleFit exampleSearch exampleData 3 1 0 2 10 0).B
            (SSNMF_run exampleFit exampleSearch exampleData 3 1 0 2 10 0).S_test) 0).getD r 0) ∧
      (∀ r' : Nat, r' < r →
        (colOf (matMul (SSNMF_run exampleFit exampleSearch exampleData 3 1 0 2 10 0).B
            (SSNMF_run exampleFit exampleSearch exampleData 3 1 0 2 10 0).S_test) 0).getD r' 0 <
        (colOf (matMul (SSNMF_run exampleFit exampleSearch exampleData 3 1 0 2 10 0).B
            (SSNMF_run exampleFit exampleSearch exampleData 3 1 0 2 10 0).S_test) 0).getD r 0) :=
  ssnmf_predicted_is_argmax_plus_one exampleFit exampleSearch exampleData 3 1 0 2 10 0 0
    (by decide) (by decide)

/-- C2: with the search toggle off (`hyp_search == 0`) the supplied rank,
regularization weight and iteration bound reach the final `Evaluation`
constructor unchanged; with it on, `iterativeLocalSearch` runs on the
validation split (`X_val`, `y_val`) from the supplied initial values and its
`(opt_lamb, opt_ka, opt_itas)` are used instead; either way the final fit
consumes the full-train features and labels and the test split. -/
theorem ssnmf_hyperparameter_resolution
    (fit : FitCall → EvalModuleResult) (ils : SearchFn) (d : MethodsData)
    (modelNum : Nat) (ssnmf_tol lamb : ℚ) (ka itas : Int) (hyp_search : Nat) :
    (hyp_search = 0 →
      SSNMF_fitCall ils d modelNum ssnmf_tol lamb ka itas hyp_search =
        { train_features := d.X_train_full, train_labels := (methodsInit d).y_train_full,
          test_features := d.X_test, test_labels := (methodsInit d).y_test,
          tol := ssnmf_tol, modelNum := modelNum, k := ka, lam := lamb, numiters := itas }) ∧
    (hyp_search ≠ 0 →
      SSNMF_fitCall ils d modelNum ssnmf_tol lamb ka itas hyp_search =
        { train_features := d.X_train_full, train_labels := (methodsInit d).y_train_full,
          test_features := d.X_test, test_labels := (methodsInit d).y_test,
          tol := ssnmf_tol, modelNum := modelNum,
          k := (ils d.X_train (methodsInit d).y_train d.X_val (methodsInit d).y_val
              ka modelNum ssnmf_tol lamb ka itas).2.1,
          lam := (ils d.X_train (methodsInit d).y_train d.X_val (methodsInit d).y_val
              ka modelNum ssnmf_tol lamb ka itas).1,
          numiters := (ils d.X_train (methodsInit d).y_train d.X_val (methodsInit d).y_val
              ka modelNum ssnmf_tol lamb ka itas).2.2 }) ∧
    SSNMF_run fit ils d modelNum ssnmf_tol lamb ka itas hyp_search =
      { test_evals := (fit (SSNMF_fitCall ils d modelNum ssnmf_tol lamb ka itas hyp_search)).test_evals,
        A := (fit (SSNMF_fitCall ils d modelNum ssnmf_tol lamb ka itas hyp_search)).A,
        B := (fit (SSNMF_fitCall ils d modelNum ssnmf_tol lamb ka itas hyp_search)).B,
        predicted := ssnmfPredict
          (fit (SSNMF_fitCall ils d modelNum ssnmf_tol lamb ka itas hyp_search)).B
          (fit (SSNMF_fitCall ils d modelNum ssnmf_tol lamb ka itas hyp_search)).S_test,
        iters := ((fit (SSNMF_fitCall ils d modelNum ssnmf_tol lamb ka itas
          hyp_search)).train_evals.headD []).length,
        S := (fit (SSNMF_fitCall ils d modelNum ssnmf_tol lamb ka itas hyp_search)).S,
        S_test := (fit (SSNMF_fitCall ils d modelNum ssnmf_tol lamb ka itas hyp_search)).S_test } := by
  refine ⟨?_, ?_, rfl⟩
  · intro h
    simp [SSNMF_fitCall, SSNMF_hyperparams, h]
  · intro h
    simp [SSNMF_fitCall, SSNMF_hyperparams, h]

/-- C3: the trial index `run_analysis` stores for a method is
`np.argsort(acc)[len(acc) // 2]`; on a non-empty accuracy sequence that is a
valid trial index; and on the sequence `[0.70, 0.85, 0.60, 0.90, 0.75]` the
argsort is `[2, 0, 4, 1, 3]` and the selected index is 4. -/
theorem median_trial_index_selection :
    (∀ accD : MDict ℚ,
      ("Model3", runMedianIndex accD.m3) ∈ runAnalysisMedianDict accD ∧
      ("Model4", runMedianIndex accD.m4) ∈ runAnalysisMedianDict accD ∧
      ("Model5", runMedianIndex accD.m5) ∈ runAnalysisMedianDict accD ∧
      ("Model6", runMedianIndex accD.m6) ∈ runAnalysisMedianDict accD ∧
      ("NMF", runMedianIndex accD.nmf) ∈ runAnalysisMedianDict accD ∧
      ("SVM", runMedianIndex accD.svm) ∈ runAnalysisMedianDict accD) ∧
    (∀ acc : List ℚ, runMedianIndex acc = (npArgsort acc).getD (acc.length / 2) 0) ∧
    (∀ acc : List ℚ, acc ≠ [] → runMedianIndex acc < acc.length) ∧
    npArgsort [7/10, 17/20, 3/5, 9/10, 3/4] = [2, 0, 4, 1, 3] ∧
    runMedianIndex [7/10, 17/20, 3/5, 9/10, 3/4] = 4 := by
  have hsort : npArgsort [7/10, 17/20, 3/5, 9/10, 3/4] = [2, 0, 4, 1, 3] := by
    simp only [npArgsort, insertIdxAsc, List.length_cons, List.length_nil, List.range_succ]
    norm_num [insertIdxAsc]
  refine ⟨?_, fun _ => rfl, ?_, hsort, ?_⟩
  · intro accD
    simp [runAnalysisMedianDict]
  · intro acc hne
    have hpos : 0 < acc.length := List.length_pos.mpr hne
    have hidx : acc.length / 2 < (npArgsort acc).length := by
      rw [length_npArgsort]
      exact Nat.div_lt_self hpos (by norm_num)
    have hmem : (npArgsort acc).getD (acc.length / 2) 0 ∈ npArgsort acc := by
      rw [List.getD_eq_getElem _ _ hidx]
      exact List.getElem_mem hidx
    have hrange := (npArgsort_perm acc).mem_iff.mp hmem
    unfold runMedianIndex
    exact List.mem_range.mp hrange
  · unfold runMedianIndex
    rw [hsort]
    rfl

/-- C4: the coefficient matrix `Methods.NMF` returns is the fitted
classifier's `coef_` with every negative entry replaced by zero (so it has no
negative entry), while the reported accuracy and predictions are computed
from the unclipped classifier and the classifier's own coefficient matrix
survives unchanged (the clip acts on a `.copy()`). -/
theorem nmf_coefficient_clipping
    (factor : Mat → Nat → ℚ → Mat × Mat × Nat) (svmFit : Mat → List Int → SVMClf)
    (nnls : Mat → List ℚ → List ℚ) (d : MethodsData) (rank : Nat) (nmf_tol : ℚ)
    (i jj : Nat) :
    (NMF_method factor svmFit nnls d rank nmf_tol).nn_svm =
      clipNeg (svmFit (matTranspose (factor d.X_train_full rank nmf_tol).2.1)
        d.train_labels_full).coef ∧
    0 ≤ (((NMF_method factor svmFit nnls d rank nmf_tol).nn_svm).getD i []).getD jj 0 ∧
    (NMF_method factor svmFit nnls d rank nmf_tol).predicted =
      (svmFit (matTranspose (factor d.X_train_full rank nmf_tol).2.1)
        d.train_labels_full).predictFn
        (matTranspose (NMF_method factor svmFit nnls d rank nmf_tol).H_test) ∧
    (NMF_method factor svmFit nnls d rank nmf_tol).nmf_svm_acc =
      meanEq (NMF_method factor svmFit nnls d rank nmf_tol).predicted d.test_labels ∧
    (NMF_method factor svmFit nnls d rank nmf_tol).clf_coef_after =
      (svmFit (matTranspose (factor d.X_train_full rank nmf_tol).2.1)
        d.train_labels_full).coef :=
  ⟨rfl, getD_clipNeg_nonneg _ i jj, rfl, rfl, rfl⟩

/-- C5: column `i` of the test representation `H_test` built by `Methods.NMF`
is exactly the `nnls` solve against the fitted dictionary `W` and column `i`
of the test features, and it depends on no other test document: any test
matrix agreeing on column `i` (with the same training input and column
count) yields the same column `i` of `H_test`. -/
theorem nmf_test_projection_per_document
    (factor : Mat → Nat → ℚ → Mat × Mat × Nat) (svmFit : Mat → List Int → SVMClf)
    (nnls : Mat → List ℚ → List ℚ) (d : MethodsData) (rank : Nat) (nmf_tol : ℚ)
    (i r : Nat) (hi : i < numCols d.X_test) (hr : r < rank) :
    (colOf (NMF_method factor svmFit nnls d rank nmf_tol).H_test i).getD r 0 =
      (nnls (factor d.X_train_full rank nmf_tol).1 (colOf d.X_test i)).getD r 0 ∧
    (∀ d' : MethodsData, d'.X_train_full = d.X_train_full →
      numCols d'.X_test = numCols d.X_test →
      colOf d'.X_test i = colOf d.X_test i →
      colOf (NMF_method factor svmFit nnls d' rank nmf_tol).H_test i =
        colOf (NMF_method factor svmFit nnls d rank nmf_tol).H_test i) := by
  have hcols : ∀ dd : MethodsData,
      (NMF_method factor svmFit nnls dd rank nmf_tol).H_test =
        matFromCols rank ((List.range (numCols dd.X_test)).map
          (fun ii => nnls (factor dd.X_train_full rank nmf_tol).1 (colOf dd.X_test ii))) :=
    fun _ => rfl
  constructor
  · rw [hcols d, colOf_matFromCols rank _ i (by simpa using hi),
      getD_map_range _ _ r hr, getD_map_range _ _ i hi]
  · intro d' hX hnum hcol
    rw [hcols d', hcols d,
      colOf_matFromCols rank _ i (by simpa [hnum] using hi),
      colOf_matFromCols rank _ i (by simpa using hi),
      getD_map_range _ _ i (by rw [hnum]; exact hi), getD_map_range _ _ i hi,
      hX, hcol]

/-- C5 witness: the theorem evaluated at concrete collaborators and data,
document 0, coordinate 0. -/
theorem nmf_test_projection_per_document_witness :
    (colOf (NMF_method exampleFactor exampleSvmFit exampleNnls exampleData 2 1).H_test 0).getD 0 0 =
      (exampleNnls (exampleFactor exampleData.X_train_full 2 1).1
        (colOf exampleData.X_test 0)).getD 0 0 ∧
    (∀ d' : MethodsData, d'.X_train_full = exampleData.X_train_full →
      numCols d'.X_test = numCols exampleData.X_test →
      colOf d'.X_test 0 = colOf exampleData.X_test 0 →
      colOf (NMF_method exampleFactor exampleSvmFit exampleNnls d' 2 1).H_test 0 =
        colOf (NMF_method exampleFactor exampleSvmFit exampleNnls exampleData 2 1).H_test 0) :=
  nmf_test_projection_per_document exampleFactor exampleSvmFit exampleNnls exampleData 2 1 0 0
    (by decide) (by decide)

/-- C6 counterexample: `Methods.__init__` one-hot encodes each split with its
own `pd.get_dummies` call, so with `train_labels = [1, 2]` and
`val_labels = [1]` the validation label matrix has a single class row `[1]`
while the train matrix has class rows `[1, 2]`: the row ordering is not
derived once from the global class set and is not consistent across splits. -/
theorem onehot_rows_not_globally_consistent :
    classesOf exampleData.train_labels = [1, 2] ∧
    classesOf exampleData.val_labels = [1] ∧
    ((methodsInit exampleData).y_train).length = 2 ∧
    ((methodsInit exampleData).y_val).length = 1 ∧
    ¬ classesOf exampleData.val_labels = classesOf exampleData.train_labels := by
  decide

/-- C6 (amended): every one-hot label matrix `Methods.__init__` builds has
columns summing to exactly 1; each split's row ordering is the ascending
order of the classes present in that split, so two splits agree whenever
their class sets coincide — but the ordering is per split, not derived once
globally. -/
theorem onehot_column_sums_per_split_order
    (dd : MethodsData) (labels l1 l2 : List Int) (d : Nat) (hd : d < labels.length)
    (hset : l1.toFinset = l2.toFinset) :
    (methodsInit dd).y_train = oneHotT dd.train_labels ∧
    (methodsInit dd).y_val = oneHotT dd.val_labels ∧
    (methodsInit dd).y_test = oneHotT dd.test_labels ∧
    (methodsInit dd).y_train_full = oneHotT dd.train_labels_full ∧
    (colOf (oneHotT labels) d).sum = 1 ∧
    classesOf l1 = classesOf l2 :=
  ⟨rfl, rfl, rfl, rfl, colOf_oneHotT_sum labels d hd, classesOf_eq_of_toFinset_eq l1 l2 hset⟩

/-- C6 witness: the amended theorem at the concrete constructor input,
document 0 of the full-train labels, and the set-equal label lists `[1, 2]`
and `[2, 1, 1]`. -/
theorem onehot_column_sums_per_split_order_witness :
    (methodsInit exampleData).y_train = oneHotT exampleData.train_labels ∧
    (methodsInit exampleData).y_val = oneHotT exampleData.val_labels ∧
    (methodsInit exampleData).y_test = oneHotT exampleData.test_labels ∧
    (methodsInit exampleData).y_train_full = oneHotT exampleData.train_labels_full ∧
    (colOf (oneHotT [1, 2, 1]) 0).sum = 1 ∧
    classesOf [1, 2] = classesOf [2, 1, 1] :=
  onehot_column_sums_per_split_order exampleData [1, 2, 1] [1, 2] [2, 1, 1] 0
    (by decide) (by decide)

/-- C7 counterexample: after trial 2 of a 2-trial run the persisted
dictionary holds 2 accuracy entries for Model3 but still a single Naive
Bayes entry, so the entry count does not equal the completed-trial count for
every method. -/
theorem checkpoint_nb_count_mismatch :
    (runAnalysisCheckpoints (fun _ _ => (0 : ℚ)) 1 2).getD 1 (initMDict 1) =
      afterTrials (fun _ _ => (0 : ℚ)) 1 2 ∧
    (afterTrials (fun _ _ => (0 : ℚ)) 1 2).m3.length = 2 ∧
    (afterTrials (fun _ _ => (0 : ℚ)) 1 2).nb.length = 1 ∧
    ¬ (afterTrials (fun _ _ => (0 : ℚ)) 1 2).nb.length = 2 := by
  decide

/-- C7 (amended): `run_analysis` persists the result dictionary once per
completed trial, and the `j`-th persisted snapshot holds exactly `j + 1`
accuracy entries for each of Model3..Model6, NMF and SVM — but always
exactly one entry for Naive Bayes, which runs once before the loop. -/
theorem checkpoint_entry_counts {α : Type} (res : Nat → Fin 6 → α) (nbv : α) (n j : Nat)
    (hj : j < n) :
    (runAnalysisCheckpoints res nbv n).length = n ∧
    (runAnalysisCheckpoints res nbv n).getD j (initMDict nbv) = afterTrials res nbv (j + 1) ∧
    (afterTrials res nbv (j + 1)).m3.length = j + 1 ∧
    (afterTrials res nbv (j + 1)).m4.length = j + 1 ∧
    (afterTrials res nbv (j + 1)).m5.length = j + 1 ∧
    (afterTrials res nbv (j + 1)).m6.length = j + 1 ∧
    (afterTrials res nbv (j + 1)).nmf.length = j + 1 ∧
    (afterTrials res nbv (j + 1)).svm.length = j + 1 ∧
    (afterTrials res nbv (j + 1)).nb.length = 1 := by
  obtain ⟨h3, h4, h5, h6, hn, hs⟩ := afterTrials_lengths res nbv (j + 1)
  refine ⟨by simp [runAnalysisCheckpoints], ?_, h3, h4, h5, h6, hn, hs, ?_⟩
  · unfold runAnalysisCheckpoints
    exact getD_map_range _ n j hj _
  · rw [afterTrials_nb]
    rfl

/-- C7 witness: the amended theorem at a concrete 3-trial run, snapshot 1. -/
theorem checkpoint_entry_counts_witness :
    (runAnalysisCheckpoints (fun _ _ => (0 : ℚ)) 1 3).length = 3 ∧
    (runAnalysisCheckpoints (fun _ _ => (0 : ℚ)) 1 3).getD 1 (initMDict 1) =
      afterTrials (fun _ _ => (0 : ℚ)) 1 2 ∧
    (afterTrials (fun _ _ => (0 : ℚ)) 1 2).m3.length = 2 ∧
    (afterTrials (fun _ _ => (0 : ℚ)) 1 2).m4.length = 2 ∧
    (afterTrials (fun _ _ => (0 : ℚ)) 1 2).m5.length = 2 ∧
    (afterTrials (fun _ _ => (0 : ℚ)) 1 2).m6.length = 2 ∧
    (afterTrials (fun _ _ => (0 : ℚ)) 1 2).nmf.length = 2 ∧
    (afterTrials (fun _ _ => (0 : ℚ)) 1 2).svm.length = 2 ∧
    (afterTrials (fun _ _ => (0 : ℚ)) 1 2).nb.length = 1 :=
  checkpoint_entry_counts (fun _ _ => (0 : ℚ)) 1 3 1 (by decide)

/-- C8 counterexample: class 3 occurs in the test labels and never in the
full-train labels, yet `Methods.MultinomialNB` returns its (accuracy,
predictions) pair without signalling any `DataMismatchError`. -/
theorem nb_missing_class_no_error :
    (3 : Int) ∈ mismatchData.test_labels ∧
    ¬ (3 : Int) ∈ mismatchData.train_labels_full ∧
    (MultinomialNB_method exampleNBFit exampleNBPredict mismatchData).isOk = true := by
  decide

/-- C8 (amended): `Methods.MultinomialNB` never signals a
`DataMismatchError`: for every input — whatever the external classifier
does and whatever classes the test labels carry — it returns `Except.ok` of
the accuracy and the predictions the classifier computed from the full-train
fit, and the predictions do not depend on the test labels at all. -/
theorem nb_never_signals_mismatch {Clf : Type} (fit : Mat → List Int → Clf)
    (predict : Clf → Mat → List Int) (d : MethodsData) (tl : List Int) :
    MultinomialNB_method fit predict d =
      Except.ok
        (meanEq (predict (fit (matTranspose d.X_train_full) d.train_labels_full)
            (matTranspose d.X_test)) d.test_labels,
          predict (fit (matTranspose d.X_train_full) d.train_labels_full)
            (matTranspose d.X_test)) ∧
    (MultinomialNB_method fit predict { d with test_labels := tl }).toOption.map Prod.snd =
      (MultinomialNB_method fit predict d).toOption.map Prod.snd :=
  ⟨rfl, rfl⟩

/-- C9 counterexample: with rank 0, regularization weight −1 and iteration
bound 0 — all three violating the required bounds — `Methods.SSNMF` raises
no `InvalidHyperparameterError`: it returns normally and passes rank 0
straight to the `Evaluation` constructor. -/
theorem ssnmf_invalid_hyperparameters_no_error :
    ((0 : Int) ≤ 0 ∧ (-1 : ℚ) < 0 ∧ (0 : Int) ≤ 0) ∧
    (SSNMF_method exampleFit exampleSearch exampleData 3 1 (-1) 0 0 0).isOk = true ∧
    (SSNMF_fitCall exampleSearch exampleData 3 1 (-1) 0 0 0).k = 0 := by
  decide

/-- C9 (amended): `Methods.SSNMF` performs no hyperparameter validation:
even when rank ≤ 0, regularization weight < 0 or iteration bound ≤ 0 it
returns `Except.ok` of the normal computation, and (with the search toggle
off) the invalid values reach the `Evaluation` constructor unchanged. -/
theorem ssnmf_hyperparameters_unvalidated
    (fit : FitCall → EvalModuleResult) (ils : SearchFn) (d : MethodsData)
    (modelNum : Nat) (ssnmf_tol lamb : ℚ) (ka itas : Int) (hyp_search : Nat)
    (hbad : ka ≤ 0 ∨ lamb < 0 ∨ itas ≤ 0) :
    SSNMF_method fit ils d modelNum ssnmf_tol lamb ka itas hyp_search =
      Except.ok (SSNMF_run fit ils d modelNum ssnmf_tol lamb ka itas hyp_search) ∧
    (hyp_search = 0 →
      (SSNMF_fitCall ils d modelNum ssnmf_tol lamb ka itas hyp_search).k = ka ∧
      (SSNMF_fitCall ils d modelNum ssnmf_tol lamb ka itas hyp_search).lam = lamb ∧
      (SSNMF_fitCall ils d modelNum ssnmf_tol lamb ka itas hyp_search).numiters = itas) := by
  refine ⟨rfl, ?_⟩
  intro h
  refine ⟨?_, ?_, ?_⟩ <;> simp [SSNMF_fitCall, SSNMF_hyperparams, h]

/-- C9 witness: the amended theorem evaluated at rank 0, weight −1,
iteration bound 0, search toggle off. -/
theorem ssnmf_hyperparameters_unvalidated_witness :
    (SSNMF_method exampleFit exampleSearch exampleData 3 1 (-1) 0 0 0 =
      Except.ok (SSNMF_run exampleFit exampleSearch exampleData 3 1 (-1) 0 0 0)) ∧
    ((0 : Nat) = 0 →
      (SSNMF_fitCall exampleSearch exampleData 3 1 (-1) 0 0 0).k = 0 ∧
      (SSNMF_fitCall exampleSearch exampleData 3 1 (-1) 0 0 0).lam = -1 ∧
      (SSNMF_fitCall exampleSearch exampleData 3 1 (-1) 0 0 0).numiters = 0) :=
  ssnmf_hyperparameters_unvalidated exampleFit exampleSearch exampleData 3 1 (-1) 0 0 0
    (Or.inl (by decide))

/-- C10: Naive Bayes is evaluated exactly once, before the trial loop: for
every trial count its list in the result dictionary is exactly the single
pre-loop entry, `median_dict` has no entry for it, and `median_results`
reads the Naive Bayes predictions at index 0. -/
theorem nb_evaluated_once {α : Type} (res : Nat → Fin 6 → α) (nbv : α) (n : Nat)
    (accD : MDict ℚ) (yhat : MDict (List Int)) :
    (afterTrials res nbv n).nb = [nbv] ∧
    (afterTrials res nbv n).nb.length = 1 ∧
    (((runAnalysisMedianDict accD).map Prod.fst).contains "NB") = false ∧
    medianResults_nbPredicted yhat = yhat.nb.getD 0 [] := by
  refine ⟨afterTrials_nb res nbv n, ?_, rfl, rfl⟩
  rw [afterTrials_nb]
  rfl

end Methods20News
